import Mathlib

/-
  Verification of the CSV ETL pipeline (src/etl_pipeline.py).

  The in-flight dataset is a pandas DataFrame: an ordered sequence of named,
  dtype-carrying columns.  We embed it as `Table`, a list of named columns,
  where each column is either numeric dtype (`Col.numCol`, cells are integers
  or NaN) or object dtype (`Col.strCol`, cells are strings or NaN).

  `ETLPipeline.transform` (lines 71-127) is embedded as four stages composed
  in order: `stage1` (dropna, line 88), `stage2` (per-column numeric
  conversion, lines 97-109), `stage3` (metadata enrichment, lines 112-113)
  and `stage4` (combined_field synthesis, lines 118-122), plus the metrics
  bookkeeping of lines 84, 90 and 124.  `load_to_csv`/`extractTable` embed
  `DataFrame.to_csv(index=False)` and `pd.read_csv` at the level of parsed
  CSV records (header plus string rows).  `runPipeline` embeds
  `ETLPipeline.run` (lines 173-211) with the effectful stage outcomes made
  explicit parameters.
-/

namespace ETL

/-- Scalar cell value of a Table: null (NaN), numeric, boolean, or text. -/
inductive Cell where
  | null : Cell
  | num : Int → Cell
  | bool : Bool → Cell
  | text : String → Cell
deriving DecidableEq

/-- One DataFrame column together with its dtype: `numCol` is a numeric
(int64/float64) column whose cells are numbers or NaN, `boolCol` is a
bool-dtype column (as inferred by `read_csv` for columns of boolean
literals), `strCol` is an object-dtype column whose cells are strings or
NaN.  Object cells are modeled as strings; the one reader case where real
`read_csv` places non-string objects in an object column (a column of
boolean literals that also has missing fields, whose literal strings become
Python booleans) is outside this cell vocabulary and outside the round-trip
theorem's hypothesis. -/
inductive Col where
  | numCol : List (Option Int) → Col
  | boolCol : List (Option Bool) → Col
  | strCol : List (Option String) → Col
deriving DecidableEq

/-- A Table (pandas DataFrame): an ordered sequence of named columns. -/
structure Table where
  cols : List (String × Col)
deriving DecidableEq

/-! ## Decimal number parsing and rendering

`pd.to_numeric` / `read_csv` numeric inference parse the full cell content as
a number; `to_csv` renders numeric cells back in decimal.  Integers model the
numeric scalars. -/

/-- Character of a single decimal digit (`d < 10`). -/
def digitToChar (d : Nat) : Char := Char.ofNat (48 + d)

/-- Inverse of `digitToChar` on decimal digit characters. -/
def charToDigit? (c : Char) : Option Nat :=
  if 48 ≤ c.toNat ∧ c.toNat ≤ 57 then some (c.toNat - 48) else none

/-- Little-endian decimal digit characters of `n`, with structural fuel so the
kernel can evaluate it. -/
def natCharsRevFuel : Nat → Nat → List Char
  | _, 0 => []
  | 0, _ => []
  | fuel + 1, n + 1 => digitToChar ((n + 1) % 10) :: natCharsRevFuel fuel ((n + 1) / 10)

/-- Decimal digit characters of `n`, most significant first. -/
def natChars (n : Nat) : List Char :=
  if n = 0 then ['0'] else (natCharsRevFuel n n).reverse

/-- Value of a little-endian list of decimal digit characters; fails on any
non-digit character. -/
def readRev : List Char → Option Nat
  | [] => some 0
  | c :: cs =>
    match charToDigit? c, readRev cs with
    | some d, some m => some (d + 10 * m)
    | _, _ => none

/-- Parses an optionally negated decimal integer; this is the numeric-cell
syntax of the model.  The whole content must be numeric. -/
def parseChars : List Char → Option Int
  | [] => none
  | c :: rest =>
    if c = '-' then
      if rest = [] then none
      else (readRev rest.reverse).map (fun n => -(n : Int))
    else (readRev (c :: rest).reverse).map (fun n => (n : Int))

/-- Numeric parse of a full cell string. -/
def parseNum? (s : String) : Option Int := parseChars s.data

/-- Decimal rendering of a numeric cell, as written by `to_csv`. -/
def renderNum (v : Int) : String :=
  if v < 0 then String.mk ('-' :: natChars v.natAbs) else String.mk (natChars v.natAbs)

/-! ## Column helpers -/

/-- The string `str(x)` gives for an object cell: NaN prints as `nan`. -/
def optText : Option String → String
  | none => "nan"
  | some s => s

def Col.length : Col → Nat
  | Col.numCol cs => cs.length
  | Col.boolCol cs => cs.length
  | Col.strCol cs => cs.length

/-- Whether the column has object (text) dtype, as selected by
`select_dtypes(include=['object'])`; numeric and bool dtypes are not
object. -/
def Col.isStr : Col → Bool
  | Col.numCol _ => false
  | Col.boolCol _ => false
  | Col.strCol _ => true

/-- Whether the cell at row `i` is present (not NaN). -/
def Col.isSomeAt : Col → Nat → Bool
  | Col.numCol cs, i => (cs.getD i none).isSome
  | Col.boolCol cs, i => (cs.getD i none).isSome
  | Col.strCol cs, i => (cs.getD i none).isSome

/-- Dtype-erased view of the cell at row `i`. -/
def Col.cellAt : Col → Nat → Cell
  | Col.numCol cs, i =>
    match cs.getD i none with
    | none => Cell.null
    | some v => Cell.num v
  | Col.boolCol cs, i =>
    match cs.getD i none with
    | none => Cell.null
    | some b => Cell.bool b
  | Col.strCol cs, i =>
    match cs.getD i none with
    | none => Cell.null
    | some s => Cell.text s

/-- Dtype-erased view of all cells of a column. -/
def Col.cellList : Col → List Cell
  | Col.numCol cs => cs.map (fun o =>
      match o with
      | none => Cell.null
      | some v => Cell.num v)
  | Col.boolCol cs => cs.map (fun o =>
      match o with
      | none => Cell.null
      | some b => Cell.bool b)
  | Col.strCol cs => cs.map (fun o =>
      match o with
      | none => Cell.null
      | some s => Cell.text s)

/-- The string `str(x)` gives for a boolean cell. -/
def boolText (b : Bool) : String := if b then "True" else "False"

/-- Cell strings produced by `Series.astype(str)` (NaN prints as `nan`). -/
def Col.textCells : Col → List String
  | Col.numCol cs => cs.map (fun o =>
      match o with
      | none => "nan"
      | some v => renderNum v)
  | Col.boolCol cs => cs.map (fun o =>
      match o with
      | none => "nan"
      | some b => boolText b)
  | Col.strCol cs => cs.map optText

/-- Positional row selection by a boolean mask, keeping original order. -/
def applyMask {α : Type} : List Bool → List α → List α
  | true :: m, x :: xs => x :: applyMask m xs
  | false :: m, _ :: xs => applyMask m xs
  | _, _ => []

/-- Row selection applied inside a column, preserving its dtype. -/
def Col.applyMask : Col → List Bool → Col
  | Col.numCol cs, m => Col.numCol (ETL.applyMask m cs)
  | Col.boolCol cs, m => Col.boolCol (ETL.applyMask m cs)
  | Col.strCol cs, m => Col.strCol (ETL.applyMask m cs)

/-! ## Table helpers -/

/-- Row count of a DataFrame (`len(df)`); all columns have this length for a
rectangular table. -/
def Table.nRows (t : Table) : Nat :=
  match t.cols with
  | [] => 0
  | c :: _ => c.2.length

/-- Column names in column order. -/
def Table.header (t : Table) : List String := t.cols.map Prod.fst

/-- Rectangularity: every column has length `t.nRows`.  DataFrames always
satisfy this. -/
def Table.rect (t : Table) : Bool := t.cols.all (fun p => p.2.length == t.nRows)

/-- Whether row `i` has a present (non-NaN) value in every column. -/
def Table.rowFull (t : Table) (i : Nat) : Bool := t.cols.all (fun p => p.2.isSomeAt i)

/-- Row mask kept by `dropna`: a row survives iff it is null-free. -/
def Table.keepMask (t : Table) : List Bool := (List.range t.nRows).map t.rowFull

/-- Indices of the rows that survive `dropna`, in original order. -/
def keptIndices (t : Table) : List Nat := (List.range t.nRows).filter t.rowFull

/-- The column restricted to the given row indices, in index order. -/
def Col.selectIdx : Col → List Nat → Col
  | Col.numCol cs, is => Col.numCol (is.map (fun i => cs.getD i none))
  | Col.boolCol cs, is => Col.boolCol (is.map (fun i => cs.getD i none))
  | Col.strCol cs, is => Col.strCol (is.map (fun i => cs.getD i none))

/-- `DataFrame.dropna()` (line 88): drops every row containing at least one
missing value, returning a new frame. -/
def Table.dropna (t : Table) : Table :=
  ⟨t.cols.map (fun p => (p.1, p.2.applyMask t.keepMask))⟩

/-- Whether the frame has a column of the given name. -/
def Table.hasCol (t : Table) (name : String) : Bool := t.cols.any (fun p => p.1 == name)

/-- Column assignment `df[name] = col`: pandas replaces the column(s) of that
name in place (keeping position) when the name exists, and appends a new
rightmost column otherwise. -/
def Table.assign (t : Table) (name : String) (c : Col) : Table :=
  if t.cols.any (fun p => p.1 == name) then
    ⟨t.cols.map (fun p => if p.1 == name then (name, c) else p)⟩
  else ⟨t.cols ++ [(name, c)]⟩

/-! ## The transform stages (lines 84-127) -/

/-- `pd.to_numeric(column, errors='raise')`: succeeds iff every present cell
parses as a number; NaN passes through as NaN. -/
def toNumeric? : List (Option String) → Option (List (Option Int))
  | [] => some []
  | none :: rest => (toNumeric? rest).map (fun vs => none :: vs)
  | some s :: rest =>
    match parseNum? s, toNumeric? rest with
    | some v, some vs => some (some v :: vs)
    | _, _ => none

/-- Whether every present cell of an object column parses as a number; this is
the success condition of `pd.to_numeric(column, errors='raise')`. -/
def allParse (cs : List (Option String)) : Bool :=
  cs.all (fun o =>
    match o with
    | none => true
    | some s => (parseNum? s).isSome)

/-- Per-column action of the conversion loop (lines 99-109): an object column
is replaced by its numeric form exactly when the whole column converts;
numeric and bool columns are not in `numeric_columns`
(`select_dtypes(include=['object'])`) and are untouched. -/
def stepCol : Col → Col
  | Col.numCol cs => Col.numCol cs
  | Col.boolCol cs => Col.boolCol cs
  | Col.strCol cs =>
    match toNumeric? cs with
    | some vs => Col.numCol vs
    | none => Col.strCol cs

/-- Stage 1, line 88: data cleaning by `dropna`. -/
def stage1 (t : Table) : Table := t.dropna

/-- Stage 2, lines 97-109: attempted numeric conversion of each object column. -/
def stage2 (t : Table) : Table := ⟨t.cols.map (fun p => (p.1, stepCol p.2))⟩

/-- Constant object column produced by broadcasting a scalar string over the
frame's rows (`df[name] = scalar_string`). -/
def constCol (s : String) (n : Nat) : Col := Col.strCol (List.replicate n (some s))

/-- Stage 3, lines 112-113: metadata enrichment.  Scalar assignment broadcasts
the timestamp and source file name to every row as object columns; the second
assignment sees the frame produced by the first. -/
def stage3 (srcName ts : String) (t : Table) : Table :=
  (t.assign "etl_timestamp" (constCol ts t.nRows)).assign "source_file"
    (constCol srcName (t.assign "etl_timestamp" (constCol ts t.nRows)).nRows)

/-- The first two object-dtype columns in column order
(`select_dtypes(include=['object']).columns[:2]`, line 118). -/
def firstTextCols (t : Table) : List (String × Col) :=
  (t.cols.filter (fun p => p.2.isStr)).take 2

/-- Per-row value of the combined column (line 121):
`col1.astype(str) + " - " + col2.astype(str)`. -/
def combineCells (c1 c2 : Col) : List (Option String) :=
  List.zipWith (fun a b => some (a ++ " - " ++ b)) c1.textCells c2.textCells

/-- Number of object-dtype columns of the frame. -/
def countTextCols (t : Table) : Nat := (t.cols.filter (fun p => p.2.isStr)).length

/-- Stage 4, lines 118-122: combined-field synthesis from the first two
object-dtype columns, skipped when fewer than two exist. -/
def stage4 (t : Table) : Table :=
  match firstTextCols t with
  | p1 :: p2 :: _ => t.assign "combined_field" (Col.strCol (combineCells p1.2 p2.2))
  | _ => t

/-- Table-level result of `ETLPipeline.transform` for one invocation with
timestamp `ts` and source file name `srcName`. -/
def transformTable (srcName ts : String) (t : Table) : Table :=
  stage4 (stage3 srcName ts (stage2 (stage1 t)))

/-! ## Metrics and transform proper -/

/-- The metrics dictionary of the pipeline; keys absent from the dict are
`none`. -/
structure RunMetrics where
  rows_processed : Nat
  rows_filtered : Nat
  rows_with_errors : Nat
  start_time : Option String
  end_time : Option String
  execution_time_seconds : Option Int
  status : Option String
  error : Option String
deriving DecidableEq

/-- Metrics as initialized by `ETLPipeline.__init__` (lines 45-51). -/
def RunMetrics.init : RunMetrics := ⟨0, 0, 0, none, none, none, none, none⟩

/-- `ETLPipeline.transform` (lines 71-127): cleaning, conversion, enrichment
and synthesis, with the metrics updates of lines 84, 90 and 124. -/
def transform (srcName ts : String) (m : RunMetrics) (data : Table) : Table × RunMetrics :=
  let originalCount := data.nRows
  let data_cleaned := stage1 data
  let rowsFiltered := originalCount - data_cleaned.nRows
  let m1 := { m with rows_filtered := m.rows_filtered + rowsFiltered }
  let result := stage4 (stage3 srcName ts (stage2 data_cleaned))
  (result, { m1 with rows_processed := result.nRows })

/-- Statement-by-statement image of `ETLPipeline.transform` over an explicit
two-slot store (the caller's frame `data`, the local `data_cleaned`).  Line 88
`data.dropna()` is a copying operation whose result is bound to the second
slot, and every subsequent mutating statement (the column writes of lines
105, 112, 113 and 121) writes the second slot only; no statement of the
method writes the first slot. -/
def transformStore (srcName ts : String) (m : RunMetrics) (store : Table × Table) :
    (Table × Table) × RunMetrics :=
  let originalCount := store.1.nRows
  let store := (store.1, store.1.dropna)
  let rowsFiltered := originalCount - store.2.nRows
  let m1 := { m with rows_filtered := m.rows_filtered + rowsFiltered }
  let store := (store.1, stage2 store.2)
  let store := (store.1, stage3 srcName ts store.2)
  let store := (store.1, stage4 store.2)
  (store, { m1 with rows_processed := store.2.nRows })

/-! ## CSV serialization (load_to_csv) and extraction (extract) -/

/-- Parsed shape of a CSV file: the header line, then the data rows as lists
of raw field strings. -/
structure Csv where
  header : List String
  rows : List (List String)
deriving DecidableEq

/-- Field written by `to_csv` for a numeric cell; NaN becomes the empty field. -/
def renderOptNum : Option Int → String
  | none => ""
  | some v => renderNum v

/-- Field written by `to_csv` for a boolean cell (`True`/`False`); NaN becomes
the empty field. -/
def renderOptBool : Option Bool → String
  | none => ""
  | some b => boolText b

/-- Field written by `to_csv` for an object cell; NaN becomes the empty field. -/
def renderOptStr : Option String → String
  | none => ""
  | some s => s

/-- Field strings written for one column by `to_csv`. -/
def Col.render : Col → List String
  | Col.numCol cs => cs.map renderOptNum
  | Col.boolCol cs => cs.map renderOptBool
  | Col.strCol cs => cs.map renderOptStr

/-- `DataFrame.to_csv(path, index=False)` (line 138): header row of column
names, then one row per table row in order. -/
def load_to_csv (t : Table) : Csv :=
  ⟨t.header, (List.range t.nRows).map (fun i => t.cols.map (fun p => (p.2.render).getD i ""))⟩

/-- The default NA sentinel fields of `pd.read_csv` (`keep_default_na=True`):
every one of these raw fields reads back as NaN. -/
def naStrings : List String :=
  ["", "#N/A", "#N/A N/A", "#NA", "-1.#IND", "-1.#INF", "-1.#QNAN", "-NaN",
   "-nan", "1.#IND", "1.#INF", "1.#QNAN", "<NA>", "N/A", "NA", "NULL", "NaN",
   "None", "n/a", "nan", "null"]

/-- Whether a raw CSV field is one of `read_csv`'s default NA sentinels. -/
def isNA (s : String) : Bool := naStrings.any (fun t => t == s)

/-- Boolean-literal recognition of the `read_csv` parser: case-insensitive
variants of `True` and `False`. -/
def boolLit? (s : String) : Option Bool :=
  if s.data.map Char.toLower = "true".data then some true
  else if s.data.map Char.toLower = "false".data then some false
  else none

/-- Numeric typing of one raw column by `read_csv`: the column gets numeric
dtype iff every field is an NA sentinel (NaN) or parses as a number. -/
def allNumeric? : List String → Option (List (Option Int))
  | [] => some []
  | s :: rest =>
    match (if isNA s then some none else (parseNum? s).map some), allNumeric? rest with
    | some v, some vs => some (v :: vs)
    | _, _ => none

/-- Boolean typing of one raw column by `read_csv`: bool dtype when every
field is a boolean literal; a column mixing boolean literals with NA fields
does not get bool dtype (bool dtype cannot hold NaN). -/
def allBool? : List String → Option (List (Option Bool))
  | [] => some []
  | s :: rest =>
    match (if isNA s then none else boolLit? s), allBool? rest with
    | some b, some bs => some (some b :: bs)
    | _, _ => none

/-- Dtype inference of `read_csv` for one raw column, in the parser's order:
numeric when every cell is numeric or NA, else bool when every cell is a
boolean literal, and object dtype otherwise, with NA fields becoming NaN.
Cells of an object column are kept as strings; real `read_csv` additionally
turns the boolean-literal strings of an all-boolean-or-NA column into Python
booleans inside an object column, which this string-cell model cannot
express (such columns are excluded from the round-trip theorem), and gives an
empty (zero-cell) column object dtype where this model gives it numeric dtype
(no cell value is affected). -/
def typeCol (cells : List String) : Col :=
  match allNumeric? cells with
  | some vs => Col.numCol vs
  | none =>
    match allBool? cells with
    | some bs => Col.boolCol bs
    | none => Col.strCol (cells.map (fun s => if isNA s then none else some s))

/-- `pd.read_csv` (line 64) on a parsed CSV record: columns are the header
fields in order; each column's cells are the rows' fields at that position,
typed by `typeCol`. -/
def extractTable (c : Csv) : Table :=
  ⟨c.header.zip (((List.range c.header.length).map
      (fun j => c.rows.map (fun r => r.getD j ""))).map typeCol)⟩

/-! ## Run orchestration (lines 173-211) -/

/-- `os.path.basename` for POSIX paths. -/
def basename (s : String) : String := (s.splitOn "/").getLastD ""

/-- Filesystem oracle for the extract stage: the parsed contents of the
existing CSV files by path. -/
def lookupFS (fs : List (String × Csv)) (path : String) : Option Csv :=
  match fs.find? (fun p => p.1 == path) with
  | some p => some p.2
  | none => none

/-- `ETLPipeline.run` (lines 173-211) with the effectful stage outcomes made
explicit: `fs` maps existing source paths to their parsed contents (a missing
path makes `extract` raise, line 64); `csvErr`/`dbErr` are `some msg` when
the corresponding load stage raises with message `msg`.  Returns the metrics
record together with the CSV output and the store output actually produced
(`none` when the producing stage was not reached or failed).  Every failure
is caught by the `except` of lines 206-211 and folded into the metrics. -/
def runPipeline (sourcePath : String) (fs : List (String × Csv)) (ts startT endT : String)
    (elapsed : Int) (csvErr dbErr : Option String) :
    RunMetrics × Option Csv × Option Table :=
  let m0 := { RunMetrics.init with start_time := some startT }
  match lookupFS fs sourcePath with
  | none =>
    ({ m0 with end_time := some endT, status := some "failed",
               error := some ("[Errno 2] No such file or directory: " ++ sourcePath) },
     none, none)
  | some csv =>
    let data := extractTable csv
    let tm := transform (basename sourcePath) ts m0 data
    match csvErr with
    | some e =>
      ({ tm.2 with end_time := some endT, status := some "failed", error := some e },
       none, none)
    | none =>
      match dbErr with
      | some e =>
        ({ tm.2 with end_time := some endT, status := some "failed", error := some e },
         some (load_to_csv tm.1), none)
      | none =>
        ({ tm.2 with end_time := some endT, execution_time_seconds := some elapsed },
         some (load_to_csv tm.1), some tm.1)

/-! ## Cell-level equivalence used by the round-trip property -/

/-- Cell equality up to numeric-value equivalence: a text cell and a numeric
cell are equivalent when the text parses to that number. -/
def cellEquiv : Cell → Cell → Bool
  | Cell.null, Cell.null => true
  | Cell.num a, Cell.num b => a == b
  | Cell.bool a, Cell.bool b => a == b
  | Cell.text a, Cell.text b => a == b
  | Cell.num v, Cell.text s => parseNum? s == some v
  | Cell.text s, Cell.num v => parseNum? s == some v
  | _, _ => false

/-- Columns with pointwise `cellEquiv` cells of equal length. -/
def colEquiv (a b : Col) : Bool :=
  a.length == b.length && (a.cellList.zip b.cellList).all (fun p => cellEquiv p.1 p.2)

/-- Decimal-only shape of the fields `to_csv` writes for numeric cells: every
character is a digit or the minus sign.  No NA sentinel has this shape. -/
def plainNum (s : String) : Bool :=
  s.data.all (fun c => (charToDigit? c).isSome || c == '-')

/-- Whether the column survives the CSV round trip cell-for-cell: numeric
columns always do; a bool column must have no missing value (a missing field
stops bool dtype inference); a text column must contain no NA sentinel (such
a field reads back as NaN) and must not consist solely of boolean literals
over at least one present cell (such a column reads back as booleans). -/
def Col.csvClean : Col → Bool
  | Col.numCol _ => true
  | Col.boolCol cs => cs.all (fun o => o.isSome)
  | Col.strCol cs =>
    (cs.all (fun o =>
      match o with
      | none => true
      | some s => !(isNA s)))
    && !((cs.any (fun o => o.isSome)) && cs.all (fun o =>
      match o with
      | none => true
      | some s => (boolLit? s).isSome))

/-- Whether every column of the table survives the CSV round trip
cell-for-cell. -/
def Table.csvClean (t : Table) : Bool := t.cols.all (fun p => p.2.csvClean)

/-- Default entry for positional access into a column list. -/
def defaultEntry : String × Col := ("", Col.numCol [])

/-- Number of rows surviving the cleaning stage. -/
def cleanCount (t : Table) : Nat := (stage1 t).nRows

/-! ## Lemmas: decimal parsing and rendering -/

theorem charToDigit_digitToChar (d : Nat) (h : d < 10) :
    charToDigit? (digitToChar d) = some d := by
  interval_cases d <;> decide

theorem digitToChar_ne_dash (d : Nat) (h : d < 10) : digitToChar d ≠ '-' := by
  interval_cases d <;> decide

theorem readRev_natCharsRevFuel (fuel : Nat) :
    ∀ n, n ≤ fuel → readRev (natCharsRevFuel fuel n) = some n := by
  induction fuel with
  | zero =>
    intro n hn
    interval_cases n
    rfl
  | succ f ih =>
    intro n hn
    cases n with
    | zero => rfl
    | succ m =>
      have h1 : charToDigit? (digitToChar ((m + 1) % 10)) = some ((m + 1) % 10) :=
        charToDigit_digitToChar _ (Nat.mod_lt _ (by norm_num))
      have hlt : (m + 1) / 10 < m + 1 := Nat.div_lt_self (Nat.succ_pos m) (by norm_num)
      have h2 : readRev (natCharsRevFuel f ((m + 1) / 10)) = some ((m + 1) / 10) :=
        ih _ (by omega)
      show readRev (digitToChar ((m + 1) % 10) :: natCharsRevFuel f ((m + 1) / 10))
        = some (m + 1)
      rw [readRev, h1, h2]
      show some ((m + 1) % 10 + 10 * ((m + 1) / 10)) = some (m + 1)
      rw [Nat.mod_add_div]

theorem natCharsRevFuel_mem_digit (fuel : Nat) :
    ∀ n c, c ∈ natCharsRevFuel fuel n → ∃ d, d < 10 ∧ c = digitToChar d := by
  induction fuel with
  | zero =>
    intro n c hc
    cases n <;> simp [natCharsRevFuel] at hc
  | succ f ih =>
    intro n c hc
    cases n with
    | zero => simp [natCharsRevFuel] at hc
    | succ m =>
      rcases List.mem_cons.mp hc with h | h
      · exact ⟨(m + 1) % 10, Nat.mod_lt _ (by norm_num), h⟩
      · exact ih _ _ h

theorem natChars_ne_nil (n : Nat) : natChars n ≠ [] := by
  unfold natChars
  split
  · decide
  · rename_i hn
    cases n with
    | zero => exact absurd rfl hn
    | succ m =>
      rw [show natCharsRevFuel (m + 1) (m + 1)
          = digitToChar ((m + 1) % 10) :: natCharsRevFuel m ((m + 1) / 10) from rfl]
      exact fun h => absurd (List.reverse_eq_nil_iff.mp h) (List.cons_ne_nil _ _)

theorem mem_natChars_digit (n : Nat) :
    ∀ c ∈ natChars n, ∃ d, d < 10 ∧ c = digitToChar d := by
  unfold natChars
  split
  · intro c hc
    have : c = '0' := by simpa using hc
    exact ⟨0, by norm_num, by rw [this]; rfl⟩
  · intro c hc
    rw [List.mem_reverse] at hc
    exact natCharsRevFuel_mem_digit n n c hc

theorem readRev_reverse_natChars (n : Nat) : readRev (natChars n).reverse = some n := by
  unfold natChars
  split
  · rename_i hn
    rw [hn]
    rfl
  · rw [List.reverse_reverse]
    exact readRev_natCharsRevFuel n n le_rfl

theorem parseChars_natChars (n : Nat) : parseChars (natChars n) = some (n : Int) := by
  obtain ⟨c, rest, hc⟩ : ∃ c rest, natChars n = c :: rest := by
    cases h : natChars n with
    | nil => exact absurd h (natChars_ne_nil n)
    | cons c rest => exact ⟨c, rest, rfl⟩
  obtain ⟨d, hd, hcd⟩ := mem_natChars_digit n c (by rw [hc]; exact List.mem_cons_self _ _)
  rw [hc, parseChars, if_neg (by rw [hcd]; exact digitToChar_ne_dash d hd), ← hc,
    readRev_reverse_natChars]
  rfl

theorem parse_render (v : Int) : parseNum? (renderNum v) = some v := by
  unfold parseNum? renderNum
  split
  · rename_i hv
    show parseChars ('-' :: natChars v.natAbs) = some v
    rw [parseChars, if_pos rfl, if_neg (natChars_ne_nil v.natAbs),
      readRev_reverse_natChars]
    show some (-(v.natAbs : Int)) = some v
    congr 1
    omega
  · rename_i hv
    show parseChars (natChars v.natAbs) = some v
    rw [parseChars_natChars]
    congr 1
    omega

theorem renderNum_ne_empty (v : Int) : renderNum v ≠ "" := by
  intro h
  have hl : (renderNum v).data.length = 0 := by rw [h]; rfl
  unfold renderNum at hl
  rcases lt_or_le v 0 with hv | hv
  · rw [if_pos hv] at hl
    simp at hl
  · rw [if_neg (not_lt.mpr hv)] at hl
    exact natChars_ne_nil v.natAbs (List.length_eq_zero.mp hl)

/-! ## Lemmas: masks and positional selection -/

theorem applyMask_nil {α : Type} (m : List Bool) : applyMask m ([] : List α) = [] := by
  cases m with
  | nil => rfl
  | cons b bs => cases b <;> rfl

theorem applyMask_sublist {α : Type} (m : List Bool) (xs : List α) :
    (applyMask m xs).Sublist xs := by
  induction xs generalizing m with
  | nil => rw [applyMask_nil]
  | cons x xs ih =>
    cases m with
    | nil => exact List.nil_sublist _
    | cons b bs =>
      cases b with
      | true => exact (ih bs).cons₂ x
      | false => exact (ih bs).cons x

theorem applyMask_length_le {α : Type} (m : List Bool) (xs : List α) :
    (applyMask m xs).length ≤ xs.length :=
  (applyMask_sublist m xs).length_le

theorem applyMask_length_eq {α : Type} (m : List Bool) (xs : List α)
    (h : m.length = xs.length) :
    (applyMask m xs).length = (m.filter id).length := by
  induction xs generalizing m with
  | nil =>
    rw [applyMask_nil]
    rw [List.length_nil] at h
    rw [List.length_eq_zero.mp h]
    rfl
  | cons x xs ih =>
    cases m with
    | nil => simp at h
    | cons b bs =>
      have hb : bs.length = xs.length := by simpa using h
      cases b with
      | true => simpa [applyMask, List.filter_cons] using ih bs hb
      | false => simpa [applyMask, List.filter_cons] using ih bs hb

theorem range_map_getD {α : Type} (xs : List α) (d : α) :
    (List.range xs.length).map (fun i => xs.getD i d) = xs := by
  induction xs with
  | nil => rfl
  | cons x xs ih =>
    rw [List.length_cons, List.range_succ_eq_map, List.map_cons, List.map_map]
    have hc : ((fun i => (x :: xs).getD i d) ∘ Nat.succ) = fun i => xs.getD i d := by
      funext i
      rfl
    rw [hc, ih]
    rfl

theorem applyMask_range_filter {α : Type} (p : Nat → Bool) (xs : List α) (d : α) :
    applyMask ((List.range xs.length).map p) xs
      = ((List.range xs.length).filter p).map (fun i => xs.getD i d) := by
  induction xs generalizing p with
  | nil => rfl
  | cons x xs ih =>
    rw [List.length_cons, List.range_succ_eq_map, List.map_cons, List.map_map,
      List.filter_cons]
    have hmm : (List.range xs.length).map (p ∘ Nat.succ)
        = (List.range xs.length).map fun i => p (i + 1) := rfl
    cases hp : p 0 with
    | true =>
      show x :: applyMask ((List.range xs.length).map (p ∘ Nat.succ)) xs = _
      rw [hmm, ih (fun i => p (i + 1))]
      simp only [hp, if_true, List.map_cons]
      rw [List.filter_map, List.map_map]
      rfl
    | false =>
      show applyMask ((List.range xs.length).map (p ∘ Nat.succ)) xs = _
      rw [hmm, ih (fun i => p (i + 1))]
      simp only [hp, Bool.false_eq_true, if_false]
      rw [List.filter_map, List.map_map]
      rfl

theorem getD_map_of_lt {α β : Type} (f : α → β) (l : List α) (j : Nat)
    (h : j < l.length) (d : α) (d' : β) : (l.map f).getD j d' = f (l.getD j d) := by
  induction l generalizing j with
  | nil => simp at h
  | cons x xs ih =>
    cases j with
    | zero => rfl
    | succ k => exact ih k (by simpa using Nat.lt_of_succ_lt_succ h)

theorem two_mem_le_length {α : Type} {l : List α} {a b : α} (ha : a ∈ l) (hb : b ∈ l)
    (hab : a ≠ b) : 2 ≤ l.length := by
  cases l with
  | nil => simp at ha
  | cons x xs =>
    cases xs with
    | nil =>
      rw [List.mem_singleton] at ha hb
      exact absurd (ha.trans hb.symm) hab
    | cons y ys =>
      simp only [List.length_cons]
      omega

/-! ## Lemmas: column-wide numeric conversion -/

theorem toNumeric?_of_allParse (cs : List (Option String)) (h : allParse cs = true) :
    toNumeric? cs = some (cs.map (fun o => o.bind parseNum?)) := by
  induction cs with
  | nil => rfl
  | cons o rest ih =>
    rw [allParse, List.all_cons, Bool.and_eq_true] at h
    have hrest := ih h.2
    cases o with
    | none =>
      show (toNumeric? rest).map _ = _
      rw [hrest]
      rfl
    | some s =>
      obtain ⟨v, hv⟩ := Option.isSome_iff_exists.mp h.1
      show (match parseNum? s, toNumeric? rest with
        | some v, some vs => some (some v :: vs)
        | _, _ => none) = _
      rw [hv, hrest, List.map_cons]
      show _ = some ((some s).bind parseNum? :: _)
      rw [Option.some_bind, hv]

theorem toNumeric?_of_not_allParse (cs : List (Option String)) (h : allParse cs = false) :
    toNumeric? cs = none := by
  induction cs with
  | nil => simp [allParse] at h
  | cons o rest ih =>
    rw [allParse, List.all_cons, Bool.and_eq_false_iff] at h
    cases o with
    | none =>
      show (toNumeric? rest).map _ = none
      have hrest : allParse rest = false := by
        rcases h with h | h
        · simp at h
        · exact h
      rw [ih hrest]
      rfl
    | some s =>
      show (match parseNum? s, toNumeric? rest with
        | some v, some vs => some (some v :: vs)
        | _, _ => none) = none
      cases hp : parseNum? s with
      | none => cases toNumeric? rest <;> rfl
      | some v =>
        have hrest : allParse rest = false := by
          rcases h with h | h
          · simp [hp] at h
          · exact h
        rw [ih hrest]

theorem toNumeric?_length (cs : List (Option String)) :
    ∀ vs, toNumeric? cs = some vs → vs.length = cs.length := by
  induction cs with
  | nil =>
    intro vs h
    have : vs = [] := by simpa [toNumeric?] using h.symm
    rw [this]
    rfl
  | cons o rest ih =>
    intro vs h
    cases o with
    | none =>
      change (toNumeric? rest).map _ = some vs at h
      cases hq : toNumeric? rest with
      | none => rw [hq] at h; exact absurd h (by simp)
      | some ws =>
        rw [hq] at h
        have : none :: ws = vs := by simpa using h
        rw [← this, List.length_cons, List.length_cons, ih ws hq]
    | some s =>
      change (match parseNum? s, toNumeric? rest with
        | some v, some vs => some (some v :: vs)
        | _, _ => none) = some vs at h
      cases hp : parseNum? s with
      | none => rw [hp] at h; cases hq : toNumeric? rest <;> rw [hq] at h <;> exact absurd h (by simp)
      | some v =>
        rw [hp] at h
        cases hq : toNumeric? rest with
        | none => rw [hq] at h; exact absurd h (by simp)
        | some ws =>
          rw [hq] at h
          have : some v :: ws = vs := by simpa using h
          rw [← this, List.length_cons, List.length_cons, ih ws hq]

theorem stepCol_length (c : Col) : (stepCol c).length = c.length := by
  cases c with
  | numCol cs => rfl
  | boolCol cs => rfl
  | strCol cs =>
    show (match toNumeric? cs with
      | some vs => Col.numCol vs
      | none => Col.strCol cs).length = cs.length
    cases hq : toNumeric? cs with
    | none => rfl
    | some vs => exact toNumeric?_length cs vs hq

theorem col_applyMask_length_le (c : Col) (m : List Bool) :
    (c.applyMask m).length ≤ c.length := by
  cases c with
  | numCol cs => exact applyMask_length_le m cs
  | boolCol cs => exact applyMask_length_le m cs
  | strCol cs => exact applyMask_length_le m cs

theorem col_applyMask_length_eq (c : Col) (m : List Bool) (h : m.length = c.length) :
    (c.applyMask m).length = (m.filter id).length := by
  cases c with
  | numCol cs => exact applyMask_length_eq m cs h
  | boolCol cs => exact applyMask_length_eq m cs h
  | strCol cs => exact applyMask_length_eq m cs h

/-! ## Lemmas: tables, masks, assignment -/

theorem keepMask_length (t : Table) : t.keepMask.length = t.nRows := by
  unfold Table.keepMask
  rw [List.length_map, List.length_range]

theorem rect_col_length {t : Table} (h : t.rect = true) :
    ∀ p ∈ t.cols, p.2.length = t.nRows := by
  intro p hp
  rw [Table.rect, List.all_eq_true] at h
  simpa using h p hp

theorem stage1_cols (t : Table) :
    (stage1 t).cols = t.cols.map (fun p => (p.1, p.2.applyMask t.keepMask)) := rfl

theorem stage1_col_length {t : Table} (h : t.rect = true) :
    ∀ p ∈ (stage1 t).cols, p.2.length = (t.keepMask.filter id).length := by
  intro p hp
  rw [stage1_cols, List.mem_map] at hp
  obtain ⟨q, hq, rfl⟩ := hp
  exact col_applyMask_length_eq _ _
    (by rw [keepMask_length]; exact (rect_col_length h q hq).symm)

theorem cleanCount_eq {t : Table} (h : t.rect = true) :
    cleanCount t = (t.keepMask.filter id).length := by
  obtain ⟨cols⟩ := t
  cases cols with
  | nil => rfl
  | cons p ps =>
    show (p.2.applyMask (Table.keepMask ⟨p :: ps⟩)).length = _
    exact col_applyMask_length_eq _ _
      (by rw [keepMask_length]
          exact (rect_col_length h p (List.mem_cons_self p ps)).symm)

theorem cleanCount_le (t : Table) : cleanCount t ≤ t.nRows := by
  obtain ⟨cols⟩ := t
  cases cols with
  | nil => exact Nat.le_refl 0
  | cons p ps =>
    show (p.2.applyMask (Table.keepMask ⟨p :: ps⟩)).length ≤ p.2.length
    exact col_applyMask_length_le _ _

theorem stage2_cols (t : Table) :
    (stage2 t).cols = t.cols.map (fun p => (p.1, stepCol p.2)) := rfl

theorem stage2_nRows (t : Table) : (stage2 t).nRows = t.nRows := by
  obtain ⟨cols⟩ := t
  cases cols with
  | nil => rfl
  | cons p ps => exact stepCol_length p.2

theorem stage2_header (t : Table) : (stage2 t).header = t.header := by
  rw [Table.header, Table.header, stage2_cols, List.map_map]
  rfl

theorem stage1_nRows (t : Table) : (stage1 t).nRows = cleanCount t := rfl

theorem stage1_header (t : Table) : (stage1 t).header = t.header := by
  rw [Table.header, Table.header, stage1_cols, List.map_map]
  rfl

theorem assign_mem_self (t : Table) (name : String) (c : Col) :
    (name, c) ∈ (t.assign name c).cols := by
  unfold Table.assign
  split
  · rename_i hany
    rw [List.any_eq_true] at hany
    obtain ⟨p, hp, hpn⟩ := hany
    rw [List.mem_map]
    exact ⟨p, hp, by rw [if_pos hpn]⟩
  · exact List.mem_append_right _ (List.mem_singleton_self _)

theorem assign_mem_of_ne {t : Table} {p : String × Col} (hmem : p ∈ t.cols)
    {name : String} (hne : p.1 ≠ name) (c : Col) : p ∈ (t.assign name c).cols := by
  unfold Table.assign
  split
  · rw [List.mem_map]
    refine ⟨p, hmem, ?_⟩
    rw [if_neg (by simpa using hne)]
  · exact List.mem_append_left _ hmem

theorem assign_mem_elim {t : Table} {name : String} {c : Col} {p : String × Col}
    (h : p ∈ (t.assign name c).cols) : p ∈ t.cols ∨ p = (name, c) := by
  unfold Table.assign at h
  split at h
  · rw [List.mem_map] at h
    obtain ⟨q, hq, he⟩ := h
    by_cases hqn : (q.1 == name) = true
    · right
      rw [if_pos hqn] at he
      exact he.symm
    · left
      rw [if_neg hqn] at he
      rw [← he]
      exact hq
  · rcases List.mem_append.mp h with h | h
    · left
      exact h
    · right
      simpa using h

theorem assign_cols_of_not_hasCol {t : Table} {name : String} (c : Col)
    (h : t.hasCol name = false) : (t.assign name c).cols = t.cols ++ [(name, c)] := by
  unfold Table.assign
  rw [if_neg (by rw [Table.hasCol] at h; simp [h])]

theorem assign_col_length {t : Table} {name : String} {c : Col} {k : Nat}
    (ht : ∀ p ∈ t.cols, p.2.length = k) (hc : c.length = k) :
    ∀ p ∈ (t.assign name c).cols, p.2.length = k := by
  intro p hp
  rcases assign_mem_elim hp with h | h
  · exact ht p h
  · rw [h]
    exact hc

theorem nRows_assign {t : Table} {name : String} {c : Col} (h : c.length = t.nRows) :
    (t.assign name c).nRows = t.nRows := by
  obtain ⟨cols⟩ := t
  unfold Table.assign
  cases cols with
  | nil =>
    rw [if_neg (by simp)]
    exact h
  | cons p ps =>
    split
    · show (if (p.1 == name) = true then (name, c) else p).2.length = _
      split
      · exact h
      · rfl
    · rfl

theorem nRows_eq_of_all {t : Table} {k : Nat} (h : ∀ p ∈ t.cols, p.2.length = k)
    (hne : t.cols ≠ []) : t.nRows = k := by
  obtain ⟨cols⟩ := t
  cases cols with
  | nil => exact absurd rfl hne
  | cons p ps => exact h p (List.mem_cons_self _ _)

/-! ## Lemmas: enrichment and synthesis stages -/

theorem constCol_length (s : String) (n : Nat) : (constCol s n).length = n := by
  rw [constCol, Col.length, List.length_replicate]

theorem stage3_nRows (srcName ts : String) (t : Table) :
    (stage3 srcName ts t).nRows = t.nRows := by
  unfold stage3
  rw [nRows_assign (constCol_length _ _), nRows_assign (constCol_length _ _)]

theorem stage3_mem_etl (srcName ts : String) (t : Table) :
    ("etl_timestamp", constCol ts t.nRows) ∈ (stage3 srcName ts t).cols := by
  unfold stage3
  exact assign_mem_of_ne (assign_mem_self t _ _)
    (show ("etl_timestamp" : String) ≠ "source_file" by decide) _

theorem stage3_mem_source (srcName ts : String) (t : Table) :
    ("source_file", constCol srcName t.nRows) ∈ (stage3 srcName ts t).cols := by
  unfold stage3
  rw [nRows_assign (constCol_length _ _)]
  exact assign_mem_self _ _ _

theorem stage3_col_length {t : Table} {k : Nat} (ht : ∀ p ∈ t.cols, p.2.length = k)
    (hn : t.nRows = k) (srcName ts : String) :
    ∀ p ∈ (stage3 srcName ts t).cols, p.2.length = k := by
  unfold stage3
  have h1 : ∀ p ∈ (t.assign "etl_timestamp" (constCol ts t.nRows)).cols, p.2.length = k :=
    assign_col_length ht (by rw [constCol_length, hn])
  exact assign_col_length h1
    (by rw [constCol_length, nRows_assign (constCol_length _ _), hn])

theorem stage3_text_ge_two (srcName ts : String) (t : Table) :
    2 ≤ countTextCols (stage3 srcName ts t) := by
  have h1 : ("etl_timestamp", constCol ts t.nRows)
      ∈ (stage3 srcName ts t).cols.filter (fun p => p.2.isStr) :=
    List.mem_filter.mpr ⟨stage3_mem_etl srcName ts t, rfl⟩
  have h2 : ("source_file", constCol srcName t.nRows)
      ∈ (stage3 srcName ts t).cols.filter (fun p => p.2.isStr) :=
    List.mem_filter.mpr ⟨stage3_mem_source srcName ts t, rfl⟩
  exact two_mem_le_length h1 h2 (fun h => absurd (congrArg Prod.fst h)
    (show ("etl_timestamp" : String) ≠ "source_file" by decide))

theorem firstTextCols_pair {t : Table} (h : 2 ≤ countTextCols t) :
    ∃ a b, firstTextCols t = [a, b] := by
  unfold countTextCols at h
  unfold firstTextCols
  cases hf : t.cols.filter (fun p => p.2.isStr) with
  | nil =>
    rw [hf] at h
    simp at h
  | cons a rest =>
    cases rest with
    | nil =>
      rw [hf] at h
      simp at h
    | cons b rest2 => exact ⟨a, b, rfl⟩

theorem stage4_eq_self_nil {t : Table} (h : firstTextCols t = []) : stage4 t = t := by
  unfold stage4
  rw [h]

theorem stage4_eq_self_single {t : Table} {a : String × Col} (h : firstTextCols t = [a]) :
    stage4 t = t := by
  unfold stage4
  rw [h]

theorem stage4_eq_of_cons {t : Table} {a b : String × Col} {r : List (String × Col)}
    (h : firstTextCols t = a :: b :: r) :
    stage4 t = t.assign "combined_field" (Col.strCol (combineCells a.2 b.2)) := by
  unfold stage4
  rw [h]

theorem textCells_length (c : Col) : c.textCells.length = c.length := by
  cases c <;> simp [Col.textCells, Col.length]

theorem combineCells_length (c1 c2 : Col) :
    (combineCells c1 c2).length = min c1.length c2.length := by
  unfold combineCells
  rw [List.length_zipWith, textCells_length, textCells_length]

theorem stage4_col_length {t : Table} {k : Nat} (ht : ∀ p ∈ t.cols, p.2.length = k) :
    ∀ p ∈ (stage4 t).cols, p.2.length = k := by
  cases hf : firstTextCols t with
  | nil =>
    rw [stage4_eq_self_nil hf]
    exact ht
  | cons a rest =>
    cases rest with
    | nil =>
      rw [stage4_eq_self_single hf]
      exact ht
    | cons b r =>
      rw [stage4_eq_of_cons hf]
      have hsub : (a :: b :: r) ⊆ t.cols := by
        rw [← hf]
        intro x hx
        exact List.mem_of_mem_filter (List.mem_of_mem_take hx)
      apply assign_col_length ht
      show (combineCells a.2 b.2).length = k
      rw [combineCells_length, ht a (hsub (by simp)), ht b (hsub (by simp)), Nat.min_self]

theorem stage4_mem_of_ne {t : Table} {p : String × Col} (hmem : p ∈ t.cols)
    (hne : p.1 ≠ "combined_field") : p ∈ (stage4 t).cols := by
  cases hf : firstTextCols t with
  | nil =>
    rw [stage4_eq_self_nil hf]
    exact hmem
  | cons a rest =>
    cases rest with
    | nil =>
      rw [stage4_eq_self_single hf]
      exact hmem
    | cons b r =>
      rw [stage4_eq_of_cons hf]
      exact assign_mem_of_ne hmem hne _

/-! ## Lemmas: the whole transform pipeline -/

theorem transformTable_col_length {t : Table} (h : t.rect = true) (srcName ts : String) :
    ∀ p ∈ (transformTable srcName ts t).cols, p.2.length = cleanCount t := by
  apply stage4_col_length
  apply stage3_col_length
  · intro p hp
    rw [stage2_cols, List.mem_map] at hp
    obtain ⟨q, hq, rfl⟩ := hp
    show (stepCol q.2).length = cleanCount t
    rw [stepCol_length, stage1_col_length h q hq, ← cleanCount_eq h]
  · rw [stage2_nRows, stage1_nRows]

theorem transformTable_mem_etl (srcName ts : String) (t : Table) :
    ("etl_timestamp", constCol ts (cleanCount t)) ∈ (transformTable srcName ts t).cols := by
  have h := stage3_mem_etl srcName ts (stage2 (stage1 t))
  rw [stage2_nRows, stage1_nRows] at h
  exact stage4_mem_of_ne h (show ("etl_timestamp" : String) ≠ "combined_field" by decide)

theorem transformTable_mem_source (srcName ts : String) (t : Table) :
    ("source_file", constCol srcName (cleanCount t))
      ∈ (transformTable srcName ts t).cols := by
  have h := stage3_mem_source srcName ts (stage2 (stage1 t))
  rw [stage2_nRows, stage1_nRows] at h
  exact stage4_mem_of_ne h (show ("source_file" : String) ≠ "combined_field" by decide)

theorem transformTable_nRows {t : Table} (h : t.rect = true) (srcName ts : String) :
    (transformTable srcName ts t).nRows = cleanCount t :=
  nRows_eq_of_all (transformTable_col_length h srcName ts)
    (List.ne_nil_of_mem (transformTable_mem_etl srcName ts t))

theorem transformTable_combined (srcName ts : String) (t : Table) :
    ∃ a b, firstTextCols (stage3 srcName ts (stage2 (stage1 t))) = [a, b]
      ∧ ("combined_field", Col.strCol (combineCells a.2 b.2))
          ∈ (transformTable srcName ts t).cols := by
  obtain ⟨a, b, hab⟩ :=
    firstTextCols_pair (stage3_text_ge_two srcName ts (stage2 (stage1 t)))
  refine ⟨a, b, hab, ?_⟩
  show _ ∈ (stage4 (stage3 srcName ts (stage2 (stage1 t)))).cols
  rw [stage4_eq_of_cons hab]
  exact assign_mem_self _ _ _

/-! ## Lemmas: row filtering as index selection -/

theorem keptIndices_length (t : Table) :
    (t.keepMask.filter id).length = (keptIndices t).length := by
  unfold Table.keepMask keptIndices
  rw [List.filter_map, List.length_map]
  rfl

theorem applyMask_map {α β : Type} (f : α → β) (m : List Bool) (xs : List α) :
    (applyMask m xs).map f = applyMask m (xs.map f) := by
  induction xs generalizing m with
  | nil => simp [applyMask_nil]
  | cons x xs ih =>
    cases m with
    | nil => rfl
    | cons b bs =>
      cases b with
      | true =>
        show f x :: (applyMask bs xs).map f = f x :: applyMask bs (xs.map f)
        rw [ih]
      | false => exact ih bs

theorem col_applyMask_cellList (c : Col) (m : List Bool) :
    (c.applyMask m).cellList = applyMask m c.cellList := by
  cases c with
  | numCol cs => exact applyMask_map _ m cs
  | boolCol cs => exact applyMask_map _ m cs
  | strCol cs => exact applyMask_map _ m cs

theorem col_applyMask_keepMask {t : Table} {c : Col} (hlen : c.length = t.nRows) :
    c.applyMask t.keepMask = c.selectIdx (keptIndices t) := by
  cases c with
  | numCol cs =>
    show Col.numCol (applyMask t.keepMask cs) = Col.numCol _
    congr 1
    unfold Table.keepMask keptIndices
    rw [show t.nRows = cs.length from hlen.symm]
    exact applyMask_range_filter t.rowFull cs none
  | boolCol cs =>
    show Col.boolCol (applyMask t.keepMask cs) = Col.boolCol _
    congr 1
    unfold Table.keepMask keptIndices
    rw [show t.nRows = cs.length from hlen.symm]
    exact applyMask_range_filter t.rowFull cs none
  | strCol cs =>
    show Col.strCol (applyMask t.keepMask cs) = Col.strCol _
    congr 1
    unfold Table.keepMask keptIndices
    rw [show t.nRows = cs.length from hlen.symm]
    exact applyMask_range_filter t.rowFull cs none

theorem getD_mem_of_lt {α : Type} (l : List α) (j : Nat) (h : j < l.length) (d : α) :
    l.getD j d ∈ l := by
  induction l generalizing j with
  | nil => simp at h
  | cons x xs ih =>
    cases j with
    | zero => exact List.mem_cons_self _ _
    | succ k => exact List.mem_cons_of_mem _ (ih k (by simpa using Nat.lt_of_succ_lt_succ h))

theorem stage1_getD {t : Table} (h : t.rect = true) {j : Nat} (hj : j < t.cols.length) :
    (stage1 t).cols.getD j defaultEntry
      = ((t.cols.getD j defaultEntry).1,
         Col.selectIdx (t.cols.getD j defaultEntry).2 (keptIndices t)) := by
  rw [stage1_cols]
  rw [getD_map_of_lt (fun p => (p.1, p.2.applyMask t.keepMask)) t.cols j hj defaultEntry]
  show ((t.cols.getD j defaultEntry).1,
      (t.cols.getD j defaultEntry).2.applyMask t.keepMask) = _
  rw [col_applyMask_keepMask
    (rect_col_length h _ (getD_mem_of_lt t.cols j hj defaultEntry))]

/-! ## Claim C1 -/

/-- C1: for every (rectangular) input Table with distinct column names — the
shape the Extractor produces, since the code addresses columns by name —
after the Transformer runs once on a fresh metrics record,
`rows_processed + rows_filtered` equals the row count of the input Table;
`rows_processed` is the row count after filtering (line 124) and
`rows_filtered` the count of dropped rows (line 90). -/
theorem claim_C1_rows_invariant (srcName ts : String) (t : Table) (h : t.rect = true)
    (hnd : t.header.Nodup) :
    (transform srcName ts RunMetrics.init t).2.rows_processed
      + (transform srcName ts RunMetrics.init t).2.rows_filtered = t.nRows := by
  have hle := cleanCount_le t
  have hn := transformTable_nRows h srcName ts
  simp only [transform, RunMetrics.init]
  rw [show stage4 (stage3 srcName ts (stage2 (stage1 t)))
      = transformTable srcName ts t from rfl, hn, stage1_nRows]
  omega

/-- Witness for C1 at a concrete two-row table with one incomplete row. -/
theorem claim_C1_rows_invariant_witness :
    (Table.rect ⟨[("a", Col.strCol [some "x", none]),
                  ("b", Col.numCol [some 1, some 2])]⟩) = true
    ∧ (transform "f.csv" "T0" RunMetrics.init
          ⟨[("a", Col.strCol [some "x", none]),
            ("b", Col.numCol [some 1, some 2])]⟩).2.rows_processed
        + (transform "f.csv" "T0" RunMetrics.init
          ⟨[("a", Col.strCol [some "x", none]),
            ("b", Col.numCol [some 1, some 2])]⟩).2.rows_filtered
        = Table.nRows ⟨[("a", Col.strCol [some "x", none]),
                        ("b", Col.numCol [some 1, some 2])]⟩ :=
  ⟨by decide, claim_C1_rows_invariant "f.csv" "T0" _ (by decide) (by decide)⟩

/-! ## Claim C2 -/

/-- C2: column type normalization is column-wide and all-or-nothing: an
object-dtype column of the cleaned (post-filtering) table is replaced by its
parsed numeric form when every present value parses as a number, and is left
as text, unchanged, when any cell fails to parse.  Column names are assumed
distinct (the conversion loop addresses columns by name). -/
theorem claim_C2_all_or_nothing (t : Table) (j : Nat) (name : String)
    (cs : List (Option String)) (hnd : t.header.Nodup)
    (hj : (stage1 t).cols.getD j defaultEntry = (name, Col.strCol cs)) :
    (allParse cs = true →
      (stage2 (stage1 t)).cols.getD j defaultEntry
        = (name, Col.numCol (cs.map (fun o => o.bind parseNum?))))
    ∧ (allParse cs = false →
      (stage2 (stage1 t)).cols.getD j defaultEntry = (name, Col.strCol cs)) := by
  have hlt : j < (stage1 t).cols.length := by
    by_contra hge
    rw [List.getD_eq_default _ _ (Nat.le_of_not_lt hge)] at hj
    exact absurd (congrArg (fun p => p.2) hj) (by simp [defaultEntry])
  have hmap : (stage2 (stage1 t)).cols.getD j defaultEntry
      = (name, stepCol (Col.strCol cs)) := by
    rw [stage2_cols,
      getD_map_of_lt (fun p => (p.1, stepCol p.2)) (stage1 t).cols j hlt defaultEntry, hj]
  constructor
  · intro hall
    rw [hmap]
    simp only [stepCol, toNumeric?_of_allParse cs hall]
  · intro hfail
    rw [hmap]
    simp only [stepCol, toNumeric?_of_not_allParse cs hfail]

/-- Witness for C2: an all-numeric text column is converted. -/
theorem claim_C2_all_or_nothing_witness :
    (stage2 (stage1 (⟨[("a", Col.strCol [some "12"]),
                       ("b", Col.strCol [some "x"])]⟩ : Table))).cols.getD 0 defaultEntry
      = ("a", Col.numCol [some 12]) := by
  have h := (claim_C2_all_or_nothing ⟨[("a", Col.strCol [some "12"]),
      ("b", Col.strCol [some "x"])]⟩ 0 "a" [some "12"] (by decide) (by decide)).1 (by decide)
  exact h.trans (by decide)

/-! ## Claim C5 -/

/-- C5: the row-filtering step removes exactly the rows containing at least
one null value in any column: every column of the cleaned table consists of
the cells of that column at the null-free row indices, in original row order
(a sublist of the original cells); an index is kept iff every column has a
present value there; and the number of removed rows is added to
`rows_filtered`. -/
theorem claim_C5_row_filtering (srcName ts : String) (m : RunMetrics) (t : Table)
    (h : t.rect = true) :
    (∀ j, j < t.cols.length →
      (stage1 t).cols.getD j defaultEntry
        = ((t.cols.getD j defaultEntry).1,
           Col.selectIdx (t.cols.getD j defaultEntry).2 (keptIndices t))
      ∧ ((stage1 t).cols.getD j defaultEntry).2.cellList.Sublist
          ((t.cols.getD j defaultEntry).2.cellList))
    ∧ (∀ i, i < t.nRows →
        (i ∈ keptIndices t ↔ ∀ p ∈ t.cols, p.2.isSomeAt i = true))
    ∧ ((transform srcName ts m t).2.rows_filtered
        = m.rows_filtered + (t.nRows - (keptIndices t).length)) := by
  refine ⟨?_, ?_, ?_⟩
  · intro j hj
    refine ⟨stage1_getD h hj, ?_⟩
    rw [stage1_cols,
      getD_map_of_lt (fun p => (p.1, p.2.applyMask t.keepMask)) t.cols j hj defaultEntry]
    show ((t.cols.getD j defaultEntry).2.applyMask t.keepMask).cellList.Sublist _
    rw [col_applyMask_cellList]
    exact applyMask_sublist _ _
  · intro i hi
    unfold keptIndices
    rw [List.mem_filter, List.mem_range]
    unfold Table.rowFull
    rw [List.all_eq_true]
    constructor
    · intro hk
      exact hk.2
    · intro hk
      exact ⟨hi, hk⟩
  · simp only [transform]
    rw [stage1_nRows, cleanCount_eq h, keptIndices_length]

/-- Witness for C5: one filtered row out of three is recorded. -/
theorem claim_C5_row_filtering_witness :
    (transform "f.csv" "T0" RunMetrics.init
        ⟨[("a", Col.strCol [some "x", none, some "y"])]⟩).2.rows_filtered
      = RunMetrics.init.rows_filtered
        + (Table.nRows ⟨[("a", Col.strCol [some "x", none, some "y"])]⟩
           - (keptIndices ⟨[("a", Col.strCol [some "x", none, some "y"])]⟩).length) :=
  (claim_C5_row_filtering "f.csv" "T0" RunMetrics.init
    ⟨[("a", Col.strCol [some "x", none, some "y"])]⟩ (by decide)).2.2

/-! ## Claim C6 -/

/-- C6: after the Transformer runs, the output table contains the two
enrichment columns, the transformation timestamp and the source file name,
each present with the one identical value broadcast over all output rows.
Column names are assumed distinct, as the Extractor produces them. -/
theorem claim_C6_enrichment (srcName ts : String) (t : Table) (h : t.rect = true)
    (hnd : t.header.Nodup) :
    ("etl_timestamp",
        Col.strCol (List.replicate (transformTable srcName ts t).nRows (some ts)))
      ∈ (transformTable srcName ts t).cols
    ∧ ("source_file",
        Col.strCol (List.replicate (transformTable srcName ts t).nRows (some srcName)))
      ∈ (transformTable srcName ts t).cols := by
  have hn := transformTable_nRows h srcName ts
  constructor
  · have hm := transformTable_mem_etl srcName ts t
    rw [constCol] at hm
    rw [hn]
    exact hm
  · have hm := transformTable_mem_source srcName ts t
    rw [constCol] at hm
    rw [hn]
    exact hm

/-- Witness for C6 at a concrete one-row table. -/
theorem claim_C6_enrichment_witness :
    ("etl_timestamp",
        Col.strCol (List.replicate
          (transformTable "f.csv" "T0" ⟨[("a", Col.numCol [some 5])]⟩).nRows (some "T0")))
      ∈ (transformTable "f.csv" "T0" ⟨[("a", Col.numCol [some 5])]⟩).cols :=
  (claim_C6_enrichment "f.csv" "T0" ⟨[("a", Col.numCol [some 5])]⟩
    (by decide) (by decide)).1

/-! ## Claim C3 (corrected) -/

/-- C3 counterexample: for an all-numeric one-column table there are zero
text-typed columns after the numeric-conversion step, yet the code appends
combined_field anyway, because the selection of line 118 runs after the
enrichment of lines 112-113. -/
theorem claim_C3_counterexample :
    countTextCols (stage2 (stage1 (⟨[("a", Col.numCol [some 1])]⟩ : Table))) = 0
    ∧ (transformTable "f.csv" "T0"
        ⟨[("a", Col.numCol [some 1])]⟩).hasCol "combined_field" = true := by
  decide

/-- C3 amended: text columns are counted after enrichment, which always
contributes two object columns, so at the synthesis step at least two
text-typed columns always exist and the derived column is always appended;
its per-row value is `<first text col> - <second text col>` from the first
two object-dtype columns in column order at that point (enrichment columns
included).  Column names are assumed distinct (line 121 addresses the two
columns by name). -/
theorem claim_C3_combined_always (srcName ts : String) (t : Table)
    (hnd : t.header.Nodup) :
    2 ≤ countTextCols (stage3 srcName ts (stage2 (stage1 t)))
    ∧ ∃ a b, firstTextCols (stage3 srcName ts (stage2 (stage1 t))) = [a, b]
      ∧ ("combined_field",
          Col.strCol (List.zipWith (fun x y => some (x ++ " - " ++ y))
            a.2.textCells b.2.textCells))
        ∈ (transformTable srcName ts t).cols := by
  refine ⟨stage3_text_ge_two srcName ts (stage2 (stage1 t)), ?_⟩
  obtain ⟨a, b, hab, hmem⟩ := transformTable_combined srcName ts t
  exact ⟨a, b, hab, hmem⟩

/-- Witness for C3 at the all-numeric one-column table: the synthesis step
still sees two text columns and still appends combined_field. -/
theorem claim_C3_combined_always_witness :
    2 ≤ countTextCols (stage3 "f.csv" "T0"
        (stage2 (stage1 (⟨[("a", Col.numCol [some 1])]⟩ : Table))))
    ∧ ∃ a b, firstTextCols (stage3 "f.csv" "T0"
        (stage2 (stage1 (⟨[("a", Col.numCol [some 1])]⟩ : Table)))) = [a, b]
      ∧ ("combined_field",
          Col.strCol (List.zipWith (fun x y => some (x ++ " - " ++ y))
            a.2.textCells b.2.textCells))
        ∈ (transformTable "f.csv" "T0" ⟨[("a", Col.numCol [some 1])]⟩).cols :=
  claim_C3_combined_always "f.csv" "T0" ⟨[("a", Col.numCol [some 1])]⟩ (by decide)

/-! ## Claim C4 -/

/-- C4: `run()` always returns the metrics record (the embedding is a total
function); a missing source path, a failing CSV load or a failing store load
is caught and folded into a metrics record with `status = "failed"`, a
non-empty error message, and `end_time` set, and the stages that were not
reached produce no CSV and no store output.  `start_time` is always set. -/
theorem claim_C4_run_failures (sourcePath : String) (fs : List (String × Csv))
    (ts startT endT : String) (elapsed : Int) (csvErr dbErr : Option String) :
    ((runPipeline sourcePath fs ts startT endT elapsed csvErr dbErr).1.start_time
        = some startT)
    ∧ (lookupFS fs sourcePath = none →
        (runPipeline sourcePath fs ts startT endT elapsed csvErr dbErr).1.status
            = some "failed"
        ∧ (∃ msg, (runPipeline sourcePath fs ts startT endT elapsed csvErr dbErr).1.error
              = some msg ∧ msg ≠ "")
        ∧ (runPipeline sourcePath fs ts startT endT elapsed csvErr dbErr).1.end_time
            = some endT
        ∧ (runPipeline sourcePath fs ts startT endT elapsed csvErr dbErr).2.1 = none
        ∧ (runPipeline sourcePath fs ts startT endT elapsed csvErr dbErr).2.2 = none)
    ∧ (∀ c, lookupFS fs sourcePath = some c → ∀ e, csvErr = some e → e ≠ "" →
        (runPipeline sourcePath fs ts startT endT elapsed csvErr dbErr).1.status
            = some "failed"
        ∧ (runPipeline sourcePath fs ts startT endT elapsed csvErr dbErr).1.error = some e
        ∧ (runPipeline sourcePath fs ts startT endT elapsed csvErr dbErr).1.end_time
            = some endT
        ∧ (runPipeline sourcePath fs ts startT endT elapsed csvErr dbErr).2.1 = none
        ∧ (runPipeline sourcePath fs ts startT endT elapsed csvErr dbErr).2.2 = none)
    ∧ (∀ c, lookupFS fs sourcePath = some c → csvErr = none → ∀ e, dbErr = some e →
        e ≠ "" →
        (runPipeline sourcePath fs ts startT endT elapsed csvErr dbErr).1.status
            = some "failed"
        ∧ (runPipeline sourcePath fs ts startT endT elapsed csvErr dbErr).1.error = some e
        ∧ (runPipeline sourcePath fs ts startT endT elapsed csvErr dbErr).1.end_time
            = some endT
        ∧ (runPipeline sourcePath fs ts startT endT elapsed csvErr dbErr).2.2 = none) := by
  refine ⟨?_, ?_, ?_, ?_⟩
  · cases hsrc : lookupFS fs sourcePath with
    | none => simp [runPipeline, hsrc]
    | some c =>
      cases hcsv : csvErr with
      | none =>
        cases hdb : dbErr with
        | none => simp [runPipeline, hsrc, hcsv, hdb, transform]
        | some e => simp [runPipeline, hsrc, hcsv, hdb, transform]
      | some e => simp [runPipeline, hsrc, hcsv, transform]
  · intro hsrc
    have hlen : ("[Errno 2] No such file or directory: " ++ sourcePath) ≠ "" := by
      intro hcon
      have hcl := congrArg String.length hcon
      rw [String.length_append] at hcl
      have hpos : 0 < ("[Errno 2] No such file or directory: " : String).length := by decide
      have h0 : ("" : String).length = 0 := rfl
      omega
    refine ⟨by simp [runPipeline, hsrc], ⟨_, by simp [runPipeline, hsrc], hlen⟩,
      by simp [runPipeline, hsrc], by simp [runPipeline, hsrc], by simp [runPipeline, hsrc]⟩
  · intro c hsrc e hcsv hne
    refine ⟨by simp [runPipeline, hsrc, hcsv], by simp [runPipeline, hsrc, hcsv],
      by simp [runPipeline, hsrc, hcsv], by simp [runPipeline, hsrc, hcsv],
      by simp [runPipeline, hsrc, hcsv]⟩
  · intro c hsrc hcsv e hdb hne
    refine ⟨by simp [runPipeline, hsrc, hcsv, hdb], by simp [runPipeline, hsrc, hcsv, hdb],
      by simp [runPipeline, hsrc, hcsv, hdb], by simp [runPipeline, hsrc, hcsv, hdb]⟩

/-- Witness for C4: a nonexistent source path yields a failed metrics record
with no outputs. -/
theorem claim_C4_run_failures_witness :
    (runPipeline "missing.csv" [] "T0" "S0" "E0" 0 none none).1.status = some "failed"
    ∧ (runPipeline "missing.csv" [] "T0" "S0" "E0" 0 none none).1.end_time = some "E0"
    ∧ (runPipeline "missing.csv" [] "T0" "S0" "E0" 0 none none).2.1 = none
    ∧ (runPipeline "missing.csv" [] "T0" "S0" "E0" 0 none none).2.2 = none := by
  have h := (claim_C4_run_failures "missing.csv" [] "T0" "S0" "E0" 0 none none).2.1 rfl
  exact ⟨h.1, h.2.2.1, h.2.2.2.1, h.2.2.2.2⟩

/-! ## Claim C9 -/

/-- C9: an empty (zero-row, rectangular) input Table with distinct column
names produces an empty output Table with the two enrichment columns present,
every output column having zero rows; the embedding is total, so no error is
raised. -/
theorem claim_C9_empty_table (srcName ts : String) (t : Table) (h : t.rect = true)
    (hnd : t.header.Nodup) (h0 : t.nRows = 0) :
    (transformTable srcName ts t).nRows = 0
    ∧ ("etl_timestamp", constCol ts 0) ∈ (transformTable srcName ts t).cols
    ∧ ("source_file", constCol srcName 0) ∈ (transformTable srcName ts t).cols
    ∧ ∀ p ∈ (transformTable srcName ts t).cols, p.2.length = 0 := by
  have hc : cleanCount t = 0 := by
    have := cleanCount_le t
    omega
  refine ⟨?_, ?_, ?_, ?_⟩
  · rw [transformTable_nRows h, hc]
  · have hm := transformTable_mem_etl srcName ts t
    rw [hc] at hm
    exact hm
  · have hm := transformTable_mem_source srcName ts t
    rw [hc] at hm
    exact hm
  · intro p hp
    rw [transformTable_col_length h srcName ts p hp, hc]

/-- Witness for C9 at a concrete zero-row table. -/
theorem claim_C9_empty_table_witness :
    (transformTable "f.csv" "T0" ⟨[("a", Col.numCol [])]⟩).nRows = 0
    ∧ ("etl_timestamp", constCol "T0" 0)
        ∈ (transformTable "f.csv" "T0" ⟨[("a", Col.numCol [])]⟩).cols := by
  have h := claim_C9_empty_table "f.csv" "T0" ⟨[("a", Col.numCol [])]⟩
    (by decide) (by decide) (by decide)
  exact ⟨h.1, h.2.1⟩

/-! ## Lemmas: CSV round trip -/

theorem cellList_length (c : Col) : c.cellList.length = c.length := by
  cases c <;> simp [Col.cellList, Col.length]

theorem render_length (c : Col) : c.render.length = c.length := by
  cases c <;> simp [Col.render, Col.length]

theorem cellEquiv_refl (x : Cell) : cellEquiv x x = true := by
  cases x <;> simp [cellEquiv]

theorem zip_self_eq_map {α : Type} (l : List α) : l.zip l = l.map (fun a => (a, a)) := by
  induction l with
  | nil => rfl
  | cons x xs ih => simp [ih]

theorem colEquiv_refl (c : Col) : colEquiv c c = true := by
  unfold colEquiv
  rw [Bool.and_eq_true]
  refine ⟨by simp, ?_⟩
  rw [zip_self_eq_map, List.all_eq_true]
  intro p hp
  rw [List.mem_map] at hp
  obtain ⟨x, _, rfl⟩ := hp
  exact cellEquiv_refl x

theorem all_zip_of_forall₂ {α : Type} {r : α → α → Bool} {l1 l2 : List α}
    (h : List.Forall₂ (fun a b => r a b = true) l1 l2) :
    (l1.zip l2).all (fun p => r p.1 p.2) = true := by
  induction h with
  | nil => rfl
  | cons hr _ ih => simp [ih, hr]

theorem colEquiv_of_forall₂ {c1 c2 : Col}
    (h : List.Forall₂ (fun a b => cellEquiv a b = true) c1.cellList c2.cellList) :
    colEquiv c1 c2 = true := by
  unfold colEquiv
  rw [Bool.and_eq_true]
  refine ⟨?_, all_zip_of_forall₂ h⟩
  have hl := h.length_eq
  rw [cellList_length, cellList_length] at hl
  simp [hl]

theorem plainNum_renderNum (v : Int) : plainNum (renderNum v) = true := by
  unfold plainNum renderNum
  split
  · show (('-' :: natChars v.natAbs).all
      (fun c => (charToDigit? c).isSome || c == '-')) = true
    rw [List.all_cons, Bool.and_eq_true]
    refine ⟨by decide, ?_⟩
    rw [List.all_eq_true]
    intro c hc
    obtain ⟨d, hd, rfl⟩ := mem_natChars_digit _ c hc
    rw [charToDigit_digitToChar d hd]
    rfl
  · show ((natChars v.natAbs).all
      (fun c => (charToDigit? c).isSome || c == '-')) = true
    rw [List.all_eq_true]
    intro c hc
    obtain ⟨d, hd, rfl⟩ := mem_natChars_digit _ c hc
    rw [charToDigit_digitToChar d hd]
    rfl

theorem renderNum_not_NA (v : Int) : isNA (renderNum v) = false := by
  by_contra hb
  rw [Bool.not_eq_false, isNA, List.any_eq_true] at hb
  obtain ⟨t, ht, hts⟩ := hb
  have hts' : t = renderNum v := by simpa using hts
  have hfin : ∀ s ∈ naStrings, s = "" ∨ plainNum s = false := by decide
  rcases hfin t ht with he | hnot
  · exact renderNum_ne_empty v (by rw [← hts', he])
  · have hplain : plainNum (renderNum v) = true := plainNum_renderNum v
    rw [← hts', hnot] at hplain
    cases hplain

theorem allNumeric?_render_num (cs : List (Option Int)) :
    allNumeric? (cs.map renderOptNum) = some cs := by
  induction cs with
  | nil => rfl
  | cons o rest ih =>
    cases o with
    | none =>
      have hNA : isNA "" = true := by decide
      simp [allNumeric?, renderOptNum, hNA, ih]
    | some v =>
      simp [allNumeric?, renderOptNum, renderNum_not_NA v, parse_render v, ih]

theorem forall₂_num_of_allNumeric (cs : List (Option String)) :
    ∀ vs, (∀ s, some s ∈ cs → isNA s = false) →
      allNumeric? (cs.map renderOptStr) = some vs →
      List.Forall₂ (fun a b => cellEquiv a b = true)
        (Col.numCol vs).cellList (Col.strCol cs).cellList := by
  induction cs with
  | nil =>
    intro vs _ hv
    have hvs : vs = [] := by simpa [allNumeric?] using hv.symm
    rw [hvs]
    exact List.Forall₂.nil
  | cons o rest ih =>
    intro vs hno hv
    have hno' : ∀ s, some s ∈ rest → isNA s = false :=
      fun s hs => hno s (List.mem_cons_of_mem _ hs)
    have hNA : isNA "" = true := by decide
    cases o with
    | none =>
      cases hq : allNumeric? (rest.map renderOptStr) with
      | none =>
        rw [show (none :: rest).map renderOptStr = "" :: rest.map renderOptStr from rfl] at hv
        simp [allNumeric?, hNA, hq] at hv
      | some ws =>
        rw [show (none :: rest).map renderOptStr = "" :: rest.map renderOptStr from rfl] at hv
        simp [allNumeric?, hNA, hq] at hv
        rw [← hv]
        show List.Forall₂ _ (Cell.null :: (Col.numCol ws).cellList)
          (Cell.null :: (Col.strCol rest).cellList)
        exact List.Forall₂.cons rfl (ih ws hno' hq)
    | some s =>
      have hs : isNA s = false := hno s (List.mem_cons_self _ _)
      rw [show (some s :: rest).map renderOptStr = s :: rest.map renderOptStr from rfl] at hv
      cases hp : parseNum? s with
      | none =>
        cases hq : allNumeric? (rest.map renderOptStr) with
        | none => simp [allNumeric?, hs, hp, hq] at hv
        | some ws => simp [allNumeric?, hs, hp, hq] at hv
      | some v =>
        cases hq : allNumeric? (rest.map renderOptStr) with
        | none => simp [allNumeric?, hs, hp, hq] at hv
        | some ws =>
          simp [allNumeric?, hs, hp, hq] at hv
          rw [← hv]
          show List.Forall₂ _ (Cell.num v :: (Col.numCol ws).cellList)
            (Cell.text s :: (Col.strCol rest).cellList)
          refine List.Forall₂.cons ?_ (ih ws hno' hq)
          simp [cellEquiv, hp]

theorem map_readback_of_noNA (cs : List (Option String))
    (h : ∀ s, some s ∈ cs → isNA s = false) :
    (cs.map renderOptStr).map (fun s => if isNA s then none else some s) = cs := by
  induction cs with
  | nil => rfl
  | cons o rest ih =>
    have hrest := ih (fun s hs => h s (List.mem_cons_of_mem _ hs))
    cases o with
    | none =>
      have hNA : isNA "" = true := by decide
      simp [renderOptStr, hNA, hrest]
    | some s =>
      have hs : isNA s = false := h s (List.mem_cons_self _ _)
      simp [renderOptStr, hs, hrest]

theorem allBool?_sound (l : List String) :
    ∀ bs, allBool? l = some bs →
      ∀ s ∈ l, isNA s = false ∧ (boolLit? s).isSome = true := by
  induction l with
  | nil =>
    intro bs _ s hs
    simp at hs
  | cons x rest ih =>
    intro bs h s hs
    cases hna : isNA x with
    | true =>
      cases hrest : allBool? rest <;> simp [allBool?, hna, hrest] at h
    | false =>
      cases hbl : boolLit? x with
      | none => cases hrest : allBool? rest <;> simp [allBool?, hna, hbl, hrest] at h
      | some b =>
        cases hrest : allBool? rest with
        | none => simp [allBool?, hna, hbl, hrest] at h
        | some bs2 =>
          rcases List.mem_cons.mp hs with rfl | hs'
          · exact ⟨hna, by rw [hbl]; rfl⟩
          · exact ih bs2 hrest s hs'

theorem allBool?_render_bool (cs : List (Option Bool))
    (h : ∀ o ∈ cs, o.isSome = true) :
    allBool? (cs.map renderOptBool) = some cs := by
  induction cs with
  | nil => rfl
  | cons o rest ih =>
    have hrest := ih (fun o ho => h o (List.mem_cons_of_mem _ ho))
    cases o with
    | none =>
      have := h none (List.mem_cons_self _ _)
      simp at this
    | some b =>
      cases b with
      | true =>
        have h1 : isNA "True" = false := by decide
        have h2 : boolLit? "True" = some true := by decide
        simp [allBool?, renderOptBool, boolText, h1, h2, hrest]
      | false =>
        have h1 : isNA "False" = false := by decide
        have h2 : boolLit? "False" = some false := by decide
        simp [allBool?, renderOptBool, boolText, h1, h2, hrest]

theorem allNumeric?_bool_head (b : Bool) (rest : List String) :
    allNumeric? (boolText b :: rest) = none := by
  cases b with
  | true =>
    have h1 : isNA "True" = false := by decide
    have h2 : parseNum? "True" = none := by decide
    cases hrest : allNumeric? rest <;> simp [allNumeric?, boolText, h1, h2, hrest]
  | false =>
    have h1 : isNA "False" = false := by decide
    have h2 : parseNum? "False" = none := by decide
    cases hrest : allNumeric? rest <;> simp [allNumeric?, boolText, h1, h2, hrest]

theorem typeCol_render_equiv (c : Col) (h : c.csvClean = true) :
    colEquiv (typeCol c.render) c = true := by
  cases c with
  | numCol cs =>
    have hr : typeCol (Col.numCol cs).render = Col.numCol cs := by
      unfold typeCol
      rw [show (Col.numCol cs).render = cs.map renderOptNum from rfl,
        allNumeric?_render_num cs]
    rw [hr]
    exact colEquiv_refl _
  | boolCol cs =>
    cases cs with
    | nil => decide
    | cons o rest =>
      rw [Col.csvClean, List.all_eq_true] at h
      obtain ⟨b, rfl⟩ : ∃ b, o = some b := by
        have hhd := h o (List.mem_cons_self _ _)
        cases o with
        | none => simp at hhd
        | some b => exact ⟨b, rfl⟩
      have hall : ∀ o ∈ rest, o.isSome = true :=
        fun o ho => h o (List.mem_cons_of_mem _ ho)
      have hb : allBool? ((some b :: rest).map renderOptBool) = some (some b :: rest) :=
        allBool?_render_bool _ (by
          intro o ho
          rcases List.mem_cons.mp ho with rfl | ho'
          · rfl
          · exact hall o ho')
      have hnum : allNumeric? ((some b :: rest).map renderOptBool) = none := by
        rw [show (some b :: rest).map renderOptBool
            = boolText b :: rest.map renderOptBool from rfl]
        exact allNumeric?_bool_head b _
      have hr : typeCol (Col.boolCol (some b :: rest)).render
          = Col.boolCol (some b :: rest) := by
        unfold typeCol
        rw [show (Col.boolCol (some b :: rest)).render
            = (some b :: rest).map renderOptBool from rfl, hnum, hb]
      rw [hr]
      exact colEquiv_refl _
  | strCol cs =>
    rw [Col.csvClean, Bool.and_eq_true] at h
    obtain ⟨h1, h2⟩ := h
    have hno : ∀ s, some s ∈ cs → isNA s = false := by
      rw [List.all_eq_true] at h1
      intro s hs
      simpa using h1 (some s) hs
    cases hq : allNumeric? (cs.map renderOptStr) with
    | some vs =>
      have hr : typeCol (Col.strCol cs).render = Col.numCol vs := by
        unfold typeCol
        rw [show (Col.strCol cs).render = cs.map renderOptStr from rfl, hq]
      rw [hr]
      exact colEquiv_of_forall₂ (forall₂_num_of_allNumeric cs vs hno hq)
    | none =>
      cases hbq : allBool? (cs.map renderOptStr) with
      | some bs =>
        exfalso
        have hsound := allBool?_sound (cs.map renderOptStr) bs hbq
        have hnonone : ∀ o ∈ cs, o.isSome = true := by
          intro o ho
          cases o with
          | some s => rfl
          | none =>
            have hc := (hsound (renderOptStr none) (List.mem_map_of_mem _ ho)).1
            rw [show renderOptStr none = "" from rfl] at hc
            exact absurd hc (by decide)
        cases cs with
        | nil =>
          rw [show ([] : List (Option String)).map renderOptStr = [] from rfl] at hq
          exact absurd hq (by simp [allNumeric?])
        | cons o rest =>
          rw [Bool.not_eq_true'] at h2
          have hany : (o :: rest).any (fun o => o.isSome) = true :=
            List.any_eq_true.mpr
              ⟨o, List.mem_cons_self _ _, hnonone o (List.mem_cons_self _ _)⟩
          have hallb : (o :: rest).all (fun o =>
              match o with
              | none => true
              | some s => (boolLit? s).isSome) = true := by
            rw [List.all_eq_true]
            intro x hx
            cases x with
            | none => rfl
            | some s =>
              have hx2 := (hsound (renderOptStr (some s)) (List.mem_map_of_mem _ hx)).2
              simpa using hx2
          rw [hany, hallb] at h2
          simp at h2
      | none =>
        have hr : typeCol (Col.strCol cs).render = Col.strCol cs := by
          unfold typeCol
          rw [show (Col.strCol cs).render = cs.map renderOptStr from rfl, hq, hbq,
            map_readback_of_noNA cs hno]
        rw [hr]
        exact colEquiv_refl _

theorem rebuild_col {t : Table} (h : t.rect = true) {j : Nat} (hj : j < t.cols.length) :
    ((load_to_csv t).rows).map (fun r => r.getD j "")
      = (t.cols.getD j defaultEntry).2.render := by
  show ((List.range t.nRows).map
      (fun i => t.cols.map (fun p => p.2.render.getD i ""))).map (fun r => r.getD j "") = _
  rw [List.map_map]
  have hstep : ∀ i ∈ List.range t.nRows,
      ((fun r : List String => r.getD j "")
        ∘ fun i => t.cols.map (fun p => p.2.render.getD i "")) i
      = (t.cols.getD j defaultEntry).2.render.getD i "" := by
    intro i _
    exact getD_map_of_lt (fun p => p.2.render.getD i "") t.cols j hj defaultEntry ""
  rw [List.map_congr_left hstep]
  have hlen : (t.cols.getD j defaultEntry).2.render.length = t.nRows := by
    rw [render_length]
    exact rect_col_length h _ (getD_mem_of_lt t.cols j hj defaultEntry)
  rw [← hlen]
  exact range_map_getD _ ""

theorem load_extract_cols {t : Table} (h : t.rect = true) :
    (extractTable (load_to_csv t)).cols
      = t.cols.map (fun p => (p.1, typeCol p.2.render)) := by
  show (load_to_csv t).header.zip
      (((List.range (load_to_csv t).header.length).map
        (fun j => (load_to_csv t).rows.map (fun r => r.getD j ""))).map typeCol) = _
  have hh : (load_to_csv t).header = t.cols.map Prod.fst := rfl
  have hk : (load_to_csv t).header.length = t.cols.length := by
    rw [hh, List.length_map]
  have hcolsS : (List.range (load_to_csv t).header.length).map
      (fun j => (load_to_csv t).rows.map (fun r => r.getD j ""))
      = t.cols.map (fun p => p.2.render) := by
    rw [hk]
    have h1 : ∀ j ∈ List.range t.cols.length,
        (load_to_csv t).rows.map (fun r => r.getD j "")
        = (t.cols.map (fun p => p.2.render)).getD j [] := by
      intro j hjr
      have hj : j < t.cols.length := List.mem_range.mp hjr
      rw [rebuild_col h hj]
      exact (getD_map_of_lt (fun p => p.2.render) t.cols j hj defaultEntry []).symm
    rw [List.map_congr_left h1]
    rw [show t.cols.length = (t.cols.map (fun p => p.2.render)).length
        from (List.length_map _ _).symm]
    exact range_map_getD _ []
  rw [hcolsS, hh, List.map_map, List.zip_map']
  rfl

/-! ## Claim C7 (corrected) -/

/-- C7 counterexample: text cells holding NA sentinels do not round trip
through the CSV Loader and the Extractor.  The text cell `""` is written as
an empty field and reads back as a null (in a numeric column), and the text
cell `"NaN"` is written literally and also reads back as a null; a null is
neither equal nor numeric-value equivalent to the original text cell, so the
claim fails at these Tables. -/
theorem claim_C7_counterexample :
    (extractTable (load_to_csv ⟨[("a", Col.strCol [some ""])]⟩)).cols
        = [("a", Col.numCol [none])]
    ∧ (extractTable (load_to_csv ⟨[("a", Col.strCol [some "NaN", some "x"])]⟩)).cols
        = [("a", Col.strCol [none, some "x"])]
    ∧ cellEquiv Cell.null (Cell.text "") = false
    ∧ cellEquiv Cell.null (Cell.text "NaN") = false := by
  decide

/-- C7 amended: for every rectangular Table with distinct column names whose
columns are CSV-clean — no text cell is one of read_csv's default NA
sentinels (such a cell reads back as null, refuting the unrestricted claim),
no text column consists solely of boolean literals over at least one present
cell (read_csv converts such a column to booleans), and boolean columns have
no missing values — serializing with the CSV Loader then extracting yields a
Table with the same column names in the same order, and cell values equal up
to numeric-value equivalence (a text cell that parses as a number may come
back as the numeric cell of that value). -/
theorem claim_C7_roundtrip_amended (t : Table) (h : t.rect = true)
    (hnd : t.header.Nodup) (hcl : t.csvClean = true) :
    (extractTable (load_to_csv t)).header = t.header
    ∧ List.Forall₂ (fun a b => a.1 = b.1 ∧ colEquiv a.2 b.2 = true)
        (extractTable (load_to_csv t)).cols t.cols := by
  have hc := load_extract_cols h
  constructor
  · rw [Table.header, hc, List.map_map]
    rfl
  · rw [hc]
    rw [List.forall₂_map_left_iff]
    refine List.forall₂_same.mpr ?_
    intro p hp
    refine ⟨rfl, ?_⟩
    apply typeCol_render_equiv
    rw [Table.csvClean, List.all_eq_true] at hcl
    exact hcl p hp

/-- Witness for C7 at a concrete table with a numeric column (including a
null), a boolean column, a text column, and a numeric-looking text cell. -/
theorem claim_C7_roundtrip_amended_witness :
    (extractTable (load_to_csv ⟨[("n", Col.numCol [some 12, none]),
        ("b", Col.boolCol [some true, some false]),
        ("s", Col.strCol [some "ab", some "5"])]⟩)).header
      = Table.header ⟨[("n", Col.numCol [some 12, none]),
        ("b", Col.boolCol [some true, some false]),
        ("s", Col.strCol [some "ab", some "5"])]⟩
    ∧ List.Forall₂ (fun a b => a.1 = b.1 ∧ colEquiv a.2 b.2 = true)
        (extractTable (load_to_csv ⟨[("n", Col.numCol [some 12, none]),
          ("b", Col.boolCol [some true, some false]),
          ("s", Col.strCol [some "ab", some "5"])]⟩)).cols
        (⟨[("n", Col.numCol [some 12, none]),
          ("b", Col.boolCol [some true, some false]),
          ("s", Col.strCol [some "ab", some "5"])]⟩ : Table).cols :=
  claim_C7_roundtrip_amended ⟨[("n", Col.numCol [some 12, none]),
    ("b", Col.boolCol [some true, some false]),
    ("s", Col.strCol [some "ab", some "5"])]⟩ (by decide) (by decide) (by decide)

/-! ## Lemmas: header growth of the rule chain -/

theorem hasCol_eq_false_iff {t : Table} {name : String} :
    t.hasCol name = false ↔ name ∉ t.header := by
  constructor
  · intro h hm
    rw [Table.header, List.mem_map] at hm
    obtain ⟨p, hp, hpn⟩ := hm
    have : t.cols.any (fun p => p.1 == name) = true :=
      List.any_eq_true.mpr ⟨p, hp, by simp [hpn]⟩
    rw [Table.hasCol, this] at h
    cases h
  · intro hm
    rw [Table.hasCol]
    by_contra hb
    rw [Bool.not_eq_false, List.any_eq_true] at hb
    obtain ⟨p, hp, hpn⟩ := hb
    exact hm (by
      rw [Table.header, List.mem_map]
      exact ⟨p, hp, by simpa using hpn⟩)

theorem header_assign_of_not_mem {t : Table} {name : String} (c : Col)
    (h : name ∉ t.header) : (t.assign name c).header = t.header ++ [name] := by
  rw [Table.header, assign_cols_of_not_hasCol c (hasCol_eq_false_iff.mpr h),
    List.map_append]
  rfl

theorem stage1_cols_length (t : Table) : (stage1 t).cols.length = t.cols.length := by
  rw [stage1_cols, List.length_map]

theorem stage2_cols_length (t : Table) :
    (stage2 t).cols.length = t.cols.length := by
  rw [stage2_cols, List.length_map]

theorem stage12_getD {t : Table} (h : t.rect = true) {j : Nat} (hj : j < t.cols.length) :
    (stage2 (stage1 t)).cols.getD j defaultEntry
      = ((t.cols.getD j defaultEntry).1,
         stepCol (Col.selectIdx (t.cols.getD j defaultEntry).2 (keptIndices t))) := by
  rw [stage2_cols,
    getD_map_of_lt (fun p => (p.1, stepCol p.2)) (stage1 t).cols j
      (by rw [stage1_cols_length]; exact hj) defaultEntry,
    stage1_getD h hj]

theorem transformTable_cols_append {t : Table} (srcName ts : String)
    (hE : "etl_timestamp" ∉ t.header) (hS : "source_file" ∉ t.header)
    (hC : "combined_field" ∉ t.header) :
    ∃ rest : List (String × Col),
      (transformTable srcName ts t).cols = (stage2 (stage1 t)).cols ++ rest
      ∧ rest.map Prod.fst = ["etl_timestamp", "source_file", "combined_field"] := by
  have h12 : (stage2 (stage1 t)).header = t.header := by
    rw [stage2_header, stage1_header]
  have hE' : "etl_timestamp" ∉ (stage2 (stage1 t)).header := by
    rw [h12]
    exact hE
  have hS' : "source_file" ∉ (stage2 (stage1 t)).header := by
    rw [h12]
    exact hS
  have hC' : "combined_field" ∉ (stage2 (stage1 t)).header := by
    rw [h12]
    exact hC
  have hc1 := assign_cols_of_not_hasCol
    (t := stage2 (stage1 t)) (constCol ts (stage2 (stage1 t)).nRows)
    (hasCol_eq_false_iff.mpr hE')
  have hh1 := header_assign_of_not_mem
    (t := stage2 (stage1 t)) (constCol ts (stage2 (stage1 t)).nRows) hE'
  have hS1 : "source_file"
      ∉ ((stage2 (stage1 t)).assign "etl_timestamp"
          (constCol ts (stage2 (stage1 t)).nRows)).header := by
    rw [hh1]
    intro hm
    rcases List.mem_append.mp hm with hm | hm
    · exact hS' hm
    · rw [List.mem_singleton] at hm
      exact absurd hm (by decide)
  have hc2 := assign_cols_of_not_hasCol
    (t := (stage2 (stage1 t)).assign "etl_timestamp"
      (constCol ts (stage2 (stage1 t)).nRows))
    (constCol srcName ((stage2 (stage1 t)).assign "etl_timestamp"
      (constCol ts (stage2 (stage1 t)).nRows)).nRows)
    (hasCol_eq_false_iff.mpr hS1)
  have hh2 := header_assign_of_not_mem
    (t := (stage2 (stage1 t)).assign "etl_timestamp"
      (constCol ts (stage2 (stage1 t)).nRows))
    (constCol srcName ((stage2 (stage1 t)).assign "etl_timestamp"
      (constCol ts (stage2 (stage1 t)).nRows)).nRows) hS1
  have hh2' : (stage3 srcName ts (stage2 (stage1 t))).header
      = ((stage2 (stage1 t)).assign "etl_timestamp"
          (constCol ts (stage2 (stage1 t)).nRows)).header ++ ["source_file"] := hh2
  have hC2 : "combined_field" ∉ (stage3 srcName ts (stage2 (stage1 t))).header := by
    rw [hh2', hh1]
    intro hm
    rcases List.mem_append.mp hm with hm | hm
    · rcases List.mem_append.mp hm with hm | hm
      · exact hC' hm
      · rw [List.mem_singleton] at hm
        exact absurd hm (by decide)
    · rw [List.mem_singleton] at hm
      exact absurd hm (by decide)
  obtain ⟨a, b, hab⟩ :=
    firstTextCols_pair (stage3_text_ge_two srcName ts (stage2 (stage1 t)))
  have hc3 := assign_cols_of_not_hasCol
    (t := stage3 srcName ts (stage2 (stage1 t)))
    (Col.strCol (combineCells a.2 b.2)) (hasCol_eq_false_iff.mpr hC2)
  refine ⟨[("etl_timestamp", constCol ts (stage2 (stage1 t)).nRows),
    ("source_file", constCol srcName ((stage2 (stage1 t)).assign "etl_timestamp"
      (constCol ts (stage2 (stage1 t)).nRows)).nRows),
    ("combined_field", Col.strCol (combineCells a.2 b.2))], ?_, rfl⟩
  have hc2' : (stage3 srcName ts (stage2 (stage1 t))).cols
      = ((stage2 (stage1 t)).assign "etl_timestamp"
          (constCol ts (stage2 (stage1 t)).nRows)).cols
        ++ [("source_file", constCol srcName ((stage2 (stage1 t)).assign "etl_timestamp"
            (constCol ts (stage2 (stage1 t)).nRows)).nRows)] := hc2
  show (stage4 (stage3 srcName ts (stage2 (stage1 t)))).cols = _
  rw [stage4_eq_of_cons hab, hc3, hc2', hc1, List.append_assoc, List.append_assoc]
  rfl

/-! ## Claim C8 (corrected) -/

/-- C8 counterexample: an input column named etl_timestamp is overwritten in
place by the enrichment assignment, so the output does not contain the input
column with its values, even though its row survives filtering unchanged. -/
theorem claim_C8_counterexample :
    stage1 (⟨[("etl_timestamp", Col.strCol [some "x"])]⟩ : Table)
        = ⟨[("etl_timestamp", Col.strCol [some "x"])]⟩
    ∧ ∀ p ∈ (transformTable "f.csv" "T0"
        ⟨[("etl_timestamp", Col.strCol [some "x"])]⟩).cols,
        p ≠ ("etl_timestamp", Col.strCol [some "x"]) := by
  decide

/-- C8 amended: for every rectangular input Table with distinct column names
and no column named etl_timestamp, source_file or combined_field, the
Transformer's output keeps
every input column at its original position with its original name, its value
being the input column restricted to the surviving rows (in original row
order, a sublist) and then possibly numeric-converted as a whole; the new
columns are exactly the three appended at the end, in order. -/
theorem claim_C8_columns_preserved (srcName ts : String) (t : Table)
    (h : t.rect = true) (hnd : t.header.Nodup)
    (hE : "etl_timestamp" ∉ t.header) (hS : "source_file" ∉ t.header)
    (hC : "combined_field" ∉ t.header) :
    (transformTable srcName ts t).header
        = t.header ++ ["etl_timestamp", "source_file", "combined_field"]
    ∧ ∀ j, j < t.cols.length →
        (transformTable srcName ts t).cols.getD j defaultEntry
          = ((t.cols.getD j defaultEntry).1,
             stepCol (Col.selectIdx (t.cols.getD j defaultEntry).2 (keptIndices t)))
        ∧ ((stage1 t).cols.getD j defaultEntry).2.cellList.Sublist
            ((t.cols.getD j defaultEntry).2.cellList) := by
  obtain ⟨rest, hcols, hnames⟩ := transformTable_cols_append srcName ts hE hS hC
  constructor
  · rw [Table.header, hcols, List.map_append, hnames]
    rw [show (stage2 (stage1 t)).cols.map Prod.fst = (stage2 (stage1 t)).header from rfl,
      stage2_header, stage1_header]
  · intro j hj
    constructor
    · rw [hcols, List.getD_append _ _ _ _
        (by rw [stage2_cols_length, stage1_cols_length]; exact hj)]
      exact stage12_getD h hj
    · rw [stage1_cols,
        getD_map_of_lt (fun p => (p.1, p.2.applyMask t.keepMask)) t.cols j hj defaultEntry]
      show ((t.cols.getD j defaultEntry).2.applyMask t.keepMask).cellList.Sublist _
      rw [col_applyMask_cellList]
      exact applyMask_sublist _ _

/-- Witness for C8 at a concrete table. -/
theorem claim_C8_columns_preserved_witness :
    (transformTable "f.csv" "T0" ⟨[("a", Col.strCol [some "x"])]⟩).header
        = Table.header ⟨[("a", Col.strCol [some "x"])]⟩
          ++ ["etl_timestamp", "source_file", "combined_field"]
    ∧ (transformTable "f.csv" "T0" ⟨[("a", Col.strCol [some "x"])]⟩).cols.getD 0
          defaultEntry
        = (((Table.cols ⟨[("a", Col.strCol [some "x"])]⟩).getD 0 defaultEntry).1,
           stepCol (Col.selectIdx
             ((Table.cols ⟨[("a", Col.strCol [some "x"])]⟩).getD 0 defaultEntry).2
             (keptIndices ⟨[("a", Col.strCol [some "x"])]⟩))) := by
  have h := claim_C8_columns_preserved "f.csv" "T0" ⟨[("a", Col.strCol [some "x"])]⟩
    (by decide) (by decide) (by decide) (by decide) (by decide)
  exact ⟨h.1, (h.2 0 (by decide)).1⟩

/-! ## Claim C10 -/

/-- C10: the Transformer does not modify the Table it is given: over the
explicit two-slot store, the statement sequence of `transform` leaves the
caller's frame exactly as passed (line 88 `dropna` copies, and every later
write targets `data_cleaned`), while the result and metrics agree with
`transform`. -/
theorem claim_C10_no_mutation (srcName ts : String) (m : RunMetrics) (data c0 : Table) :
    ((transformStore srcName ts m (data, c0)).1.1 = data)
    ∧ (transformStore srcName ts m (data, c0)).1.2 = (transform srcName ts m data).1
    ∧ (transformStore srcName ts m (data, c0)).2 = (transform srcName ts m data).2 :=
  ⟨rfl, rfl, rfl⟩

end ETL
